import Mathlib

/-!
Verification of the Biomass Route Optimizer core against its design
specification.  The Python source (`Streamlit_app_1.py`, `Streamlit_app.py`)
is shallowly embedded below: a pandas DataFrame row becomes the structure
`Row`, a DataFrame becomes `List Row`, Python's floor division `//` and
modulo `%` on integers become `Int.fdiv` and `Int.fmod` (which agree with
Python's semantics for every non-zero divisor; Python raises
`ZeroDivisionError` on a zero divisor, which a total Lean function cannot
reproduce — every theorem below therefore avoids a zero divisor), and the
third-party pieces (geopy's geodesic distance, the OR-Tools solver) are
modelled as abstract parameters, respectively spec-level definitions marked
`Modelled from the spec`.
-/

namespace Biomass

/-- A supplier record: one row of the uploaded DataFrame, with the columns
used by `split_oversized_suppliers` and the routing pipeline
(`Supplier Name (Farmer Name)`, `Latitude of the location`,
`Longitude of the location`, `Biomass Type`, `Biomass Quantity (kg)`). -/
structure Row where
  name : String
  lat : ℚ
  lon : ℚ
  biomassType : String
  qty : ℤ
deriving DecidableEq, Repr

/-- Chunks emitted for a single row by the loop body of
`split_oversized_suppliers` (Streamlit_app_1.py lines 14-33): a row whose
quantity fits the capacity is passed through unchanged; an oversized row is
replaced by `qty // capacity` full-capacity chunks whose names carry a
sequential ` (Split-i)` suffix, followed by one ` (Split-R)` remainder chunk
when `qty % capacity > 0`.  Each chunk is a copy of the original row with
only the name and quantity fields changed (`row.copy()` in the source). -/
def splitRow (row : Row) (capacity : ℤ) : List Row :=
  if row.qty ≤ capacity then [row]
  else
    let n_chunks := row.qty.fdiv capacity
    let remainder := row.qty.fmod capacity
    ((List.range n_chunks.toNat).map (fun i =>
      { row with
        qty := capacity
        name := row.name ++ " (Split-" ++ toString (i + 1) ++ ")" }))
    ++ (if remainder > 0 then
          [{ row with
             qty := remainder
             name := row.name ++ " (Split-R)" }]
        else [])

/-- The splitter itself (Streamlit_app_1.py lines 11-34): iterate the rows in
order, appending each row's emitted chunks to `new_rows`. -/
def split_oversized_suppliers : List Row → ℤ → List Row
  | [], _ => []
  | row :: rest, capacity => splitRow row capacity ++ split_oversized_suppliers rest capacity

/-- A concrete demand list used to instantiate the universally quantified
theorems. -/
def dfEx : List Row :=
  [⟨"A", 14, 79, "Cotton", 4500⟩, ⟨"B", 15, 80, "Cotton", 600⟩]

/-- A row used to instantiate per-row theorems. -/
def rowEx : Row := ⟨"A", 14, 79, "Cotton", 4500⟩

/-- Python's `int()` applied to a (rational-valued) number: truncation toward
zero, `int(dist * 1000)` in the source. -/
def pyInt (x : ℚ) : ℤ := Int.tdiv x.num (x.den : ℤ)

/-- The distance matrix builder `compute_distance_matrix`
(Streamlit_app_1.py lines 93-101, Streamlit_app.py lines 41-49).  The call to
geopy's `geodesic(loc1, loc2).km` is external library code, embedded as the
abstract parameter `geodesicKm`; the matrix stores
`int(geodesicKm loc1 loc2 * 1000)` meters. -/
def compute_distance_matrix (geodesicKm : ℚ × ℚ → ℚ × ℚ → ℚ)
    (locations : List (ℚ × ℚ)) : List (List ℤ) :=
  locations.map (fun loc1 => locations.map (fun loc2 =>
    pyInt (geodesicKm loc1 loc2 * 1000)))

/-- Entry access `matrix[i][j]` with the list defaults. -/
def mEntry (M : List (List ℤ)) (i j : ℕ) : ℤ := (M.getD i []).getD j 0

/-- A concrete stand-in for the external geodesic distance, satisfying the
metric facts assumed of geopy. -/
def dEx : ℚ × ℚ → ℚ × ℚ → ℚ := fun a b => if a = b then 0 else 7

/-- Two concrete locations. -/
def locsEx : List (ℚ × ℚ) := [(14, 79), (15, 80)]

/-- Modelled from the spec: the assignment returned by the third-party
OR-Tools solver (whose internals are not part of this repository), presented
as one list of non-depot stop nodes per vehicle slot, in visit order. -/
structure Solution where
  routes : List (List ℕ)
deriving DecidableEq, Repr

/-- The node sequence of one vehicle's route as reconstructed by the
extraction loop (Streamlit_app_1.py lines 142-152): the walk starts at the
depot, visits the stops, and the final depot is appended after the loop. -/
def routeNodes (stops : List ℕ) : List ℕ := 0 :: stops ++ [0]

/-- The load accumulation of the extraction loop (lines 145-151): walk the
route nodes and add `demands[node]` for every non-depot node. -/
def routeLoad (demands : List ℤ) (stops : List ℕ) : ℤ :=
  (routeNodes stops).foldl
    (fun acc n => if n ≠ 0 then acc + demands.getD n 0 else acc) 0

/-- The routes kept by the result builder: line 154 keeps a route exactly
when `len(route) > 2`. -/
def keptStops (sol : Solution) : List (List ℕ) :=
  sol.routes.filter (fun stops => decide (2 < (routeNodes stops).length))

/-- Modelled from the spec: feasibility of a returned Solution — what the
solver guarantees on success given the `AddDimensionWithVehicleCapacity`
constraint (zero slack, fleet-wide capacity) and the routing model's
every-node-visited-once semantics.  `demands` is the list built at line 91
(`[0] + split quantities`), so node 0 is the depot and nodes `1..N-1` are
the SplitDemand nodes. -/
@[reducible] def feasibleSolution (sol : Solution) (demands : List ℤ) (cap : ℤ) : Prop :=
  (∀ stops ∈ sol.routes, ∀ n ∈ stops, n ≠ 0 ∧ n < demands.length) ∧
  (∀ stops ∈ sol.routes, (stops.map (fun n => demands.getD n 0)).sum ≤ cap) ∧
  (∀ n, n < demands.length → 1 ≤ n → sol.routes.flatten.count n = 1)

/-- A concrete demand vector: depot plus three split demands. -/
def demandsEx : List ℤ := [0, 900, 800, 1500]

/-- A concrete returned assignment over `demandsEx`: two used vehicles and
one unused one. -/
def solEx : Solution := ⟨[[1, 2], [3], []]⟩

/-- Modelled from the spec: the improvement phase is deterministic given
input and seed, and explores candidate solutions one per iteration; the
wall-clock budget only fixes how many iterations run, and the solver returns
the best (minimum-cost) feasible solution seen so far.  `bestCost f n` is
the cost returned after `n` improvement iterations over the candidate-cost
stream `f`. -/
def bestCost (candidateCost : ℕ → ℤ) : ℕ → ℤ
  | 0 => candidateCost 0
  | n + 1 => min (bestCost candidateCost n) (candidateCost (n + 1))

/-- The per-route utilization figure computed at line 155 of
Streamlit_app_1.py: a percentage of capacity. -/
def utilizationPercent (load cap : ℚ) : ℚ := load / cap * 100

/-- The low-utilization highlight computed at line 164 for the route's first
output row: true exactly when the percentage is below 60. -/
def highlightLowUtil (load cap : ℚ) : Bool :=
  utilizationPercent load cap < 60

/-- The loop of `split_oversized_suppliers` concatenates, in input order, the
chunk lists of the individual rows. -/
lemma split_oversized_suppliers_eq_flatMap (df : List Row) (c : ℤ) :
    split_oversized_suppliers df c = df.flatMap (fun r => splitRow r c) := by
  induction df with
  | nil => rfl
  | cons row rest ih => simp [split_oversized_suppliers, ih]

lemma mem_split_oversized_suppliers {s : Row} {df : List Row} {c : ℤ} :
    s ∈ split_oversized_suppliers df c ↔ ∃ r ∈ df, s ∈ splitRow r c := by
  rw [split_oversized_suppliers_eq_flatMap]
  exact List.mem_flatMap

/-- Splitting one row conserves its quantity: the chunk quantities sum to the
original quantity, for any positive capacity. -/
lemma splitRow_qty_sum (row : Row) (c : ℤ) (hc : 0 < c) :
    ((splitRow row c).map Row.qty).sum = row.qty := by
  unfold splitRow
  by_cases hle : row.qty ≤ c
  · simp [hle]
  · have hlt : c < row.qty := lt_of_not_le hle
    have hq0 : 0 ≤ row.qty := le_of_lt (lt_trans hc hlt)
    have hdiv0 : 0 ≤ row.qty.fdiv c := Int.fdiv_nonneg hq0 (le_of_lt hc)
    have hmod0 : 0 ≤ row.qty.fmod c := Int.fmod_nonneg' row.qty hc
    have hkey : row.qty.fmod c + c * row.qty.fdiv c = row.qty :=
      Int.fmod_add_fdiv row.qty c
    simp only [hle, if_false, List.map_append, List.sum_append, List.map_map]
    have hconst :
        ((List.range (row.qty.fdiv c).toNat).map
          ((fun r => Row.qty r) ∘ (fun i =>
            { row with
              qty := c
              name := row.name ++ " (Split-" ++ toString (i + 1) ++ ")" }))) =
        List.replicate (row.qty.fdiv c).toNat c := by
      simp [List.eq_replicate_iff]
    rw [hconst, List.sum_replicate, nsmul_eq_mul]
    have htn : ((row.qty.fdiv c).toNat : ℤ) = row.qty.fdiv c :=
      Int.toNat_of_nonneg hdiv0
    by_cases hrem : row.qty.fmod c > 0
    · simp only [hrem, if_true, List.map_cons, List.map_nil, List.sum_cons,
        List.sum_nil, add_zero]
      rw [htn]
      linarith [hkey]
    · have hz : row.qty.fmod c = 0 := le_antisymm (not_lt.mp hrem) hmod0
      simp only [hrem, if_false, List.map_nil, List.sum_nil, add_zero]
      rw [htn]
      linarith [hkey]

/-- Every chunk emitted for a row with positive quantity has a quantity in
the interval `(0, c]`. -/
lemma splitRow_qty_bounds {row : Row} {c : ℤ} (hc : 0 < c) (hq : 0 < row.qty)
    {s : Row} (hs : s ∈ splitRow row c) : 0 < s.qty ∧ s.qty ≤ c := by
  unfold splitRow at hs
  by_cases hle : row.qty ≤ c
  · simp [hle] at hs
    subst hs
    exact ⟨hq, hle⟩
  · simp only [hle, if_false, List.mem_append, List.mem_map,
      List.mem_range] at hs
    rcases hs with ⟨i, _, rfl⟩ | hs
    · exact ⟨hc, le_refl c⟩
    · by_cases hrem : row.qty.fmod c > 0
      · simp [hrem] at hs
        subst hs
        exact ⟨hrem, le_of_lt (Int.fmod_lt_of_pos row.qty hc)⟩
      · simp [hrem] at hs

/-- C1: for every input demand list and positive capacity, the chunks emitted
for each original demand sum back to that demand's quantity, and every
emitted chunk quantity lies in `(0, capacity]` (demand quantities are
positive integers by the data model). -/
theorem demand_split_invariant (df : List Row) (c : ℤ) (hc : 0 < c)
    (hq : ∀ r ∈ df, 0 < r.qty) :
    (∀ r ∈ df, ((splitRow r c).map Row.qty).sum = r.qty) ∧
    (∀ s ∈ split_oversized_suppliers df c, 0 < s.qty ∧ s.qty ≤ c) := by
  constructor
  · intro r _
    exact splitRow_qty_sum r c hc
  · intro s hs
    rcases mem_split_oversized_suppliers.mp hs with ⟨r, hr, hsr⟩
    exact splitRow_qty_bounds hc (hq r hr) hsr

/-- Witness for C1 at a concrete demand list and capacity 2000. -/
theorem demand_split_invariant_witness :
    ((0 : ℤ) < 2000 ∧ (∀ r ∈ dfEx, 0 < r.qty)) ∧
    ((∀ r ∈ dfEx, ((splitRow r 2000).map Row.qty).sum = r.qty) ∧
     (∀ s ∈ split_oversized_suppliers dfEx 2000, 0 < s.qty ∧ s.qty ≤ 2000)) :=
  ⟨⟨by decide, by decide⟩, demand_split_invariant dfEx 2000 (by decide) (by decide)⟩

/-- With a positive capacity, Python's `remainder > 0` test coincides with the
spec's `q mod c ≠ 0` test, because the flooring remainder is non-negative. -/
lemma fmod_pos_iff_ne_zero (q : ℤ) {c : ℤ} (hc : 0 < c) :
    q.fmod c > 0 ↔ q.fmod c ≠ 0 :=
  have h0 : 0 ≤ q.fmod c := Int.fmod_nonneg' q hc
  ⟨fun h => ne_of_gt h, fun h => lt_of_le_of_ne h0 (Ne.symm h)⟩

/-- C4: with a positive capacity, an in-capacity demand is passed through
unchanged; an oversized demand becomes exactly `floor(q/c)` full chunks with
sequential suffixes, then a remainder chunk exactly when `q mod c ≠ 0`;
emission preserves input order (the splitter is the order-preserving
concatenation of per-row chunk lists); q = 4500 with c = 2000 yields
quantities 2000, 2000, 500 in that order. -/
theorem split_policy (row : Row) (c : ℤ) (hc : 0 < c) :
    (row.qty ≤ c → splitRow row c = [row]) ∧
    (c < row.qty →
      splitRow row c =
        ((List.range (row.qty.fdiv c).toNat).map (fun i =>
          { row with
            qty := c
            name := row.name ++ " (Split-" ++ toString (i + 1) ++ ")" }))
        ++ (if row.qty.fmod c ≠ 0 then
              [{ row with
                 qty := row.qty.fmod c
                 name := row.name ++ " (Split-R)" }]
            else [])) ∧
    (∀ df : List Row,
      split_oversized_suppliers df c = df.flatMap (fun r => splitRow r c)) ∧
    (splitRow ⟨"A", 0, 0, "Cotton", 4500⟩ 2000).map Row.qty = [2000, 2000, 500] := by
  refine ⟨fun h => by simp [splitRow, h], fun h => ?_,
    fun df => split_oversized_suppliers_eq_flatMap df c, by decide⟩
  unfold splitRow
  rw [if_neg (not_le.mpr h)]
  simp only [fmod_pos_iff_ne_zero row.qty hc]

/-- Witness for C4 at the row with quantity 4500 and capacity 2000. -/
theorem split_policy_witness :
    (0 : ℤ) < 2000 ∧
    ((rowEx.qty ≤ 2000 → splitRow rowEx 2000 = [rowEx]) ∧
     (2000 < rowEx.qty →
       splitRow rowEx 2000 =
         ((List.range (rowEx.qty.fdiv 2000).toNat).map (fun i =>
           { rowEx with
             qty := 2000
             name := rowEx.name ++ " (Split-" ++ toString (i + 1) ++ ")" }))
         ++ (if rowEx.qty.fmod 2000 ≠ 0 then
               [{ rowEx with
                  qty := rowEx.qty.fmod 2000
                  name := rowEx.name ++ " (Split-R)" }]
             else [])) ∧
     (∀ df : List Row,
       split_oversized_suppliers df 2000 = df.flatMap (fun r => splitRow r 2000)) ∧
     (splitRow ⟨"A", 0, 0, "Cotton", 4500⟩ 2000).map Row.qty = [2000, 2000, 500]) :=
  ⟨by decide, split_policy rowEx 2000 (by decide)⟩

/-- The flooring remainder is non-positive whenever the dividend is
non-negative and the divisor negative (Python's `%` takes the divisor's
sign). -/
lemma fmod_nonpos_of_nonneg_of_neg {a b : ℤ} (ha : 0 ≤ a) (hb : b < 0) :
    a.fmod b ≤ 0 := by
  obtain ⟨m, rfl⟩ := Int.eq_ofNat_of_zero_le ha
  obtain ⟨n, rfl⟩ := Int.eq_negSucc_of_lt_zero hb
  cases m with
  | zero => simp
  | succ m' =>
    show Int.subNatNat (m' % (n + 1)) n ≤ 0
    rw [Int.subNatNat_eq_coe]
    have hmn : m' % (n + 1) ≤ n := Nat.lt_succ_iff.mp (Nat.mod_lt m' (Nat.succ_pos n))
    omega

/-- C7 counterexample: the splitter has no typed failure channel.  A demand
with non-positive quantity is passed through unchanged (no `InvalidQuantity`
failure), and with a negative capacity an oversized demand is silently
dropped (no `InvalidCapacity` failure). -/
theorem splitter_no_typed_failure_counterexample :
    split_oversized_suppliers [⟨"X", 0, 0, "T", 0⟩] 2000 = [⟨"X", 0, 0, "T", 0⟩] ∧
    split_oversized_suppliers [⟨"Y", 0, 0, "T", 5⟩] (-2) = [] := by
  decide

/-- C7 amended: the splitter performs no validation.  Any demand with
`qty ≤ capacity` — including non-positive quantities — is passed through
unchanged rather than rejected, and with a negative capacity a demand of
non-negative oversized quantity is silently dropped (zero chunks emitted). -/
theorem splitter_no_validation (row : Row) (c : ℤ) :
    (row.qty ≤ c → split_oversized_suppliers [row] c = [row]) ∧
    (0 ≤ row.qty → c < 0 → c < row.qty → split_oversized_suppliers [row] c = []) := by
  constructor
  · intro h
    simp [split_oversized_suppliers, splitRow, h]
  · intro hq hc hlt
    have hdiv : (row.qty.fdiv c).toNat = 0 :=
      Int.toNat_of_nonpos (Int.fdiv_nonpos hq (le_of_lt hc))
    have hmod : ¬ row.qty.fmod c > 0 :=
      not_lt.mpr (fmod_nonpos_of_nonneg_of_neg hq hc)
    simp [split_oversized_suppliers, splitRow, not_le.mpr hlt, hdiv, hmod]

/-- Witness for the amended C7 at concrete rows and capacities. -/
theorem splitter_no_validation_witness :
    split_oversized_suppliers [⟨"A", 0, 0, "T", -3⟩] 2000 = [⟨"A", 0, 0, "T", -3⟩] ∧
    split_oversized_suppliers [⟨"B", 0, 0, "T", 5⟩] (-2) = [] :=
  ⟨(splitter_no_validation ⟨"A", 0, 0, "T", -3⟩ 2000).1 (by decide),
   (splitter_no_validation ⟨"B", 0, 0, "T", 5⟩ (-2)).2 (by decide) (by decide) (by decide)⟩

/-- Every chunk a row gives rise to preserves the row's location and biomass
type (`row.copy()` changes only name and quantity), and an in-capacity row is
reproduced identically. -/
lemma splitRow_field_preservation {s row : Row} {c : ℤ} (hs : s ∈ splitRow row c) :
    s.lat = row.lat ∧ s.lon = row.lon ∧ s.biomassType = row.biomassType ∧
    (row.qty ≤ c → s = row) := by
  unfold splitRow at hs
  by_cases hle : row.qty ≤ c
  · simp [hle] at hs
    subst hs
    exact ⟨rfl, rfl, rfl, fun _ => rfl⟩
  · simp only [hle, if_false, List.mem_append, List.mem_map, List.mem_range] at hs
    rcases hs with ⟨i, _, rfl⟩ | hs
    · exact ⟨rfl, rfl, rfl, fun h => absurd h hle⟩
    · by_cases hrem : row.qty.fmod c > 0
      · simp [hrem] at hs
        subst hs
        exact ⟨rfl, rfl, rfl, fun h => absurd h hle⟩
      · simp [hrem] at hs

/-- C10: the splitter never alters its input — in this pure embedding the
input list is untouched by construction, and in the source every chunk is
built from `row.copy()`; moreover each output row is derived from some input
row with location and biomass type copied verbatim, and every in-capacity
input row is emitted identically (name and quantity unchanged). -/
theorem split_preserves_input_rows (df : List Row) (c : ℤ) :
    (∀ r ∈ df, r.qty ≤ c → splitRow r c = [r]) ∧
    (∀ s ∈ split_oversized_suppliers df c, ∃ r ∈ df,
      s.lat = r.lat ∧ s.lon = r.lon ∧ s.biomassType = r.biomassType ∧
      (r.qty ≤ c → s = r)) := by
  constructor
  · intro r _ h
    simp [splitRow, h]
  · intro s hs
    rcases mem_split_oversized_suppliers.mp hs with ⟨r, hr, hsr⟩
    exact ⟨r, hr, splitRow_field_preservation hsr⟩

/-- Witness for C10 at a concrete demand list and capacity 2000. -/
theorem split_preserves_input_rows_witness :
    (∀ r ∈ dfEx, r.qty ≤ 2000 → splitRow r 2000 = [r]) ∧
    (∀ s ∈ split_oversized_suppliers dfEx 2000, ∃ r ∈ dfEx,
      s.lat = r.lat ∧ s.lon = r.lon ∧ s.biomassType = r.biomassType ∧
      (r.qty ≤ 2000 → s = r)) :=
  split_preserves_input_rows dfEx 2000

/-- Truncation toward zero agrees with rounding down on non-negative
values. -/
lemma pyInt_eq_floor {x : ℚ} (hx : 0 ≤ x) : pyInt x = ⌊x⌋ := by
  unfold pyInt
  rw [Rat.floor_def]
  exact Int.tdiv_eq_ediv (Rat.num_nonneg.mpr hx) (Int.natCast_nonneg x.den)

lemma pyInt_nonneg {x : ℚ} (hx : 0 ≤ x) : 0 ≤ pyInt x := by
  rw [pyInt_eq_floor hx]
  exact Int.floor_nonneg.mpr hx

/-- In-range entries of the computed matrix. -/
lemma mEntry_compute_distance_matrix (d : ℚ × ℚ → ℚ × ℚ → ℚ)
    (locs : List (ℚ × ℚ)) {i j : ℕ} (hi : i < locs.length) (hj : j < locs.length) :
    mEntry (compute_distance_matrix d locs) i j =
      pyInt (d (locs.getD i default) (locs.getD j default) * 1000) := by
  unfold mEntry compute_distance_matrix
  have hi' : i < (locs.map (fun loc1 => locs.map (fun loc2 =>
      pyInt (d loc1 loc2 * 1000)))).length := by simpa using hi
  have h1 : (locs.map (fun loc1 => locs.map (fun loc2 =>
        pyInt (d loc1 loc2 * 1000)))).getD i []
      = locs.map (fun loc2 => pyInt (d (locs.getD i default) loc2 * 1000)) := by
    rw [List.getD_eq_getElem _ _ hi', List.getElem_map, List.getD_eq_getElem _ _ hi]
  have hj' : j < (locs.map (fun loc2 =>
      pyInt (d (locs.getD i default) loc2 * 1000))).length := by simpa using hj
  rw [h1, List.getD_eq_getElem _ _ hj', List.getElem_map, List.getD_eq_getElem _ _ hj]

/-- C5: for any location list, the computed matrix is N×N; assuming the
geodesic distance function is symmetric, zero on equal points, and
non-negative (facts of the external geopy library), every in-range entry is
the geodesic distance in meters rounded down, the matrix is symmetric, the
diagonal is zero, and every entry is non-negative. -/
theorem distance_matrix_props (d : ℚ × ℚ → ℚ × ℚ → ℚ) (locs : List (ℚ × ℚ))
    (hsymm : ∀ a b, d a b = d b a) (hzero : ∀ a, d a a = 0)
    (hnn : ∀ a b, 0 ≤ d a b) :
    (compute_distance_matrix d locs).length = locs.length ∧
    (∀ row ∈ compute_distance_matrix d locs, row.length = locs.length) ∧
    (∀ i j, i < locs.length → j < locs.length →
      mEntry (compute_distance_matrix d locs) i j =
        ⌊d (locs.getD i default) (locs.getD j default) * 1000⌋ ∧
      mEntry (compute_distance_matrix d locs) i j =
        mEntry (compute_distance_matrix d locs) j i ∧
      0 ≤ mEntry (compute_distance_matrix d locs) i j) ∧
    (∀ i, i < locs.length → mEntry (compute_distance_matrix d locs) i i = 0) := by
  refine ⟨by simp [compute_distance_matrix], ?_, ?_, ?_⟩
  · intro row hrow
    rcases List.mem_map.mp hrow with ⟨loc1, _, rfl⟩
    simp
  · intro i j hi hj
    have hmul : (0 : ℚ) ≤ d (locs.getD i default) (locs.getD j default) * 1000 := by
      have := hnn (locs.getD i default) (locs.getD j default)
      positivity
    refine ⟨?_, ?_, ?_⟩
    · rw [mEntry_compute_distance_matrix d locs hi hj, pyInt_eq_floor hmul]
    · rw [mEntry_compute_distance_matrix d locs hi hj,
        mEntry_compute_distance_matrix d locs hj hi,
        hsymm (locs.getD i default) (locs.getD j default)]
    · rw [mEntry_compute_distance_matrix d locs hi hj]
      exact pyInt_nonneg hmul
  · intro i hi
    rw [mEntry_compute_distance_matrix d locs hi hi,
      hzero (locs.getD i default)]
    norm_num
    rfl

lemma dEx_symm : ∀ a b, dEx a b = dEx b a := by
  intro a b
  unfold dEx
  by_cases h : a = b
  · rw [if_pos h, if_pos h.symm]
  · rw [if_neg h, if_neg (fun e => h e.symm)]

lemma dEx_zero : ∀ a, dEx a a = 0 := by
  intro a
  simp [dEx]

lemma dEx_nonneg : ∀ a b, 0 ≤ dEx a b := by
  intro a b
  unfold dEx
  split
  · exact le_refl 0
  · norm_num

/-- Witness for C5 at a concrete two-location list. -/
theorem distance_matrix_props_witness :
    (compute_distance_matrix dEx locsEx).length = locsEx.length ∧
    (∀ row ∈ compute_distance_matrix dEx locsEx, row.length = locsEx.length) ∧
    (∀ i j, i < locsEx.length → j < locsEx.length →
      mEntry (compute_distance_matrix dEx locsEx) i j =
        ⌊dEx (locsEx.getD i default) (locsEx.getD j default) * 1000⌋ ∧
      mEntry (compute_distance_matrix dEx locsEx) i j =
        mEntry (compute_distance_matrix dEx locsEx) j i ∧
      0 ≤ mEntry (compute_distance_matrix dEx locsEx) i j) ∧
    (∀ i, i < locsEx.length → mEntry (compute_distance_matrix dEx locsEx) i i = 0) :=
  distance_matrix_props dEx locsEx dEx_symm dEx_zero dEx_nonneg

/-- The extraction loop's load equals the plain sum of the stop demands when
no stop is the depot: the leading and trailing depot nodes contribute
nothing. -/
lemma routeLoad_eq_sum (demands : List ℤ) (stops : List ℕ)
    (h0 : ∀ n ∈ stops, n ≠ 0) :
    routeLoad demands stops = (stops.map (fun n => demands.getD n 0)).sum := by
  have key : ∀ (l : List ℕ) (acc : ℤ), (∀ n ∈ l, n ≠ 0) →
      (l ++ [0]).foldl
        (fun acc n => if n ≠ 0 then acc + demands.getD n 0 else acc) acc =
      acc + (l.map (fun n => demands.getD n 0)).sum := by
    intro l
    induction l with
    | nil => intro acc _; simp
    | cons n rest ih =>
      intro acc h
      have hn : n ≠ 0 := h n (List.mem_cons_self n rest)
      simp only [List.cons_append, List.foldl_cons, if_pos hn]
      rw [ih (acc + demands.getD n 0) (fun m hm => h m (List.mem_cons_of_mem n hm))]
      simp [add_assoc]
  unfold routeLoad routeNodes
  simpa using key stops 0 h0

/-- C2: every route of a feasible Solution has extracted load at most the
vehicle capacity. -/
theorem solution_respects_capacity (sol : Solution) (demands : List ℤ)
    (cap : ℤ) (h : feasibleSolution sol demands cap) :
    ∀ stops ∈ sol.routes, routeLoad demands stops ≤ cap := by
  intro stops hs
  rw [routeLoad_eq_sum demands stops (fun n hn => (h.1 stops hs n hn).1)]
  exact h.2.1 stops hs

/-- Witness for C2 at a concrete feasible solution. -/
theorem solution_respects_capacity_witness :
    feasibleSolution solEx demandsEx 2000 ∧
    ∀ stops ∈ solEx.routes, routeLoad demandsEx stops ≤ 2000 :=
  ⟨by decide, solution_respects_capacity solEx demandsEx 2000 (by decide)⟩

/-- Dropping the routes of length ≤ 2 (exactly the stop-less ones) does not
change the concatenation of stops. -/
lemma keptStops_flatten (sol : Solution) :
    (keptStops sol).flatten = sol.routes.flatten := by
  unfold keptStops
  induction sol.routes with
  | nil => rfl
  | cons l rest ih =>
    by_cases h : 2 < (routeNodes l).length
    · rw [List.filter_cons_of_pos (by simpa using h), List.flatten_cons,
        List.flatten_cons, ih]
    · have hlen : (routeNodes l).length = l.length + 2 := by
        simp [routeNodes]
      have hl : l = [] := by
        rw [hlen] at h
        exact List.length_eq_zero.mp (by omega)
      rw [List.filter_cons_of_neg (by simpa using h), List.flatten_cons, ih, hl,
        List.nil_append]

/-- C3: the non-depot stops of the non-empty routes of a feasible Solution
are a permutation of the SplitDemand node set `{1, …, N-1}` — every node in
exactly one route, no duplicates, no omissions. -/
theorem solution_covers_all_nodes (sol : Solution) (demands : List ℤ)
    (cap : ℤ) (h : feasibleSolution sol demands cap)
    (hne : 0 < demands.length) :
    (keptStops sol).flatten.Perm (List.range' 1 (demands.length - 1)) := by
  rw [keptStops_flatten, List.perm_iff_count]
  intro a
  by_cases ha : 1 ≤ a ∧ a < demands.length
  · rw [h.2.2 a ha.2 ha.1]
    have hmem : a ∈ List.range' 1 (demands.length - 1) := by
      rw [List.mem_range'_1]
      omega
    rw [List.count_eq_one_of_mem (List.nodup_range' 1 (demands.length - 1)) hmem]
  · have h1 : a ∉ sol.routes.flatten := by
      intro hmem
      rcases List.mem_flatten.mp hmem with ⟨l, hl, hal⟩
      have hprop := h.1 l hl a hal
      exact ha ⟨Nat.one_le_iff_ne_zero.mpr hprop.1, hprop.2⟩
    have h2 : a ∉ List.range' 1 (demands.length - 1) := by
      rw [List.mem_range'_1]
      omega
    rw [List.count_eq_zero_of_not_mem h1, List.count_eq_zero_of_not_mem h2]

/-- Witness for C3 at a concrete feasible solution. -/
theorem solution_covers_all_nodes_witness :
    (feasibleSolution solEx demandsEx 2000 ∧ 0 < demandsEx.length) ∧
    (keptStops solEx).flatten.Perm (List.range' 1 (demandsEx.length - 1)) :=
  ⟨⟨by decide, by decide⟩,
   solution_covers_all_nodes solEx demandsEx 2000 (by decide) (by decide)⟩

/-- C8: on depot-only input (zero demands) the splitter emits zero rows, for
every capacity.  In the source this empty row list is materialized as
`pd.DataFrame([])`, a DataFrame with no columns, so line 90's
`df['Latitude of the location']` raises `KeyError` before
`compute_distance_matrix` is ever called: the depot-only solve errors out
instead of yielding the empty Solution the specification requires. -/
theorem depot_only_splitter_empty (c : ℤ) :
    split_oversized_suppliers [] c = [] := rfl

/-- C9: with a deterministic candidate stream and an iteration count
monotone in the time budget, a larger budget never returns a strictly worse
cost. -/
theorem returned_cost_monotone_in_budget (candidateCost : ℕ → ℤ)
    (steps : ℕ → ℕ) (hsteps : Monotone steps) (b1 b2 : ℕ) (hb : b1 ≤ b2) :
    bestCost candidateCost (steps b2) ≤ bestCost candidateCost (steps b1) := by
  have key : ∀ m n : ℕ, m ≤ n →
      bestCost candidateCost n ≤ bestCost candidateCost m := by
    intro m n hmn
    induction n with
    | zero =>
      rw [Nat.le_zero.mp hmn]
    | succ k ih =>
      rcases Nat.eq_or_lt_of_le hmn with rfl | hlt
      · exact le_refl _
      · exact le_trans (min_le_left _ _) (ih (Nat.lt_succ_iff.mp hlt))
  exact key _ _ (hsteps hb)

/-- Witness for C9 at a concrete candidate stream and budgets 1 ≤ 3. -/
theorem returned_cost_monotone_in_budget_witness :
    Monotone (fun b : ℕ => b) ∧ 1 ≤ 3 ∧
    bestCost (fun n => 10 - (n : ℤ)) 3 ≤ bestCost (fun n => 10 - (n : ℤ)) 1 :=
  ⟨monotone_id, by decide,
   returned_cost_monotone_in_budget (fun n => 10 - (n : ℤ))
     (fun b => b) monotone_id 1 3 (by decide)⟩

/-- C6 counterexample: the reported utilization of a half-loaded route is
50 (a percentage), not the fraction 1/2, and is not in [0, 1]. -/
theorem utilization_fraction_counterexample :
    utilizationPercent 1000 2000 ≠ 1000 / 2000 ∧
    ¬ utilizationPercent 1000 2000 ≤ 1 := by
  unfold utilizationPercent
  norm_num

/-- C6 amended: the RouteResult reports utilization as a percentage,
`load / capacity * 100`, which lies in [0, 100] for a feasible load, and the
low-utilization flag is set exactly when the utilization fraction
`load / capacity` is strictly below 0.6 (the hardcoded threshold 60%). -/
theorem utilization_percent_correct (load cap : ℚ) (hcap : 0 < cap)
    (h0 : 0 ≤ load) (hle : load ≤ cap) :
    utilizationPercent load cap = load / cap * 100 ∧
    0 ≤ load / cap ∧ load / cap ≤ 1 ∧
    0 ≤ utilizationPercent load cap ∧ utilizationPercent load cap ≤ 100 ∧
    (highlightLowUtil load cap = true ↔ load / cap < 3 / 5) := by
  have hfrac0 : 0 ≤ load / cap := div_nonneg h0 (le_of_lt hcap)
  have hfrac1 : load / cap ≤ 1 := (div_le_one hcap).mpr hle
  refine ⟨rfl, hfrac0, hfrac1, ?_, ?_, ?_⟩
  · unfold utilizationPercent
    positivity
  · unfold utilizationPercent
    nlinarith [hfrac1]
  · unfold highlightLowUtil utilizationPercent
    rw [decide_eq_true_eq]
    constructor
    · intro h
      linarith
    · intro h
      linarith

/-- Witness for the amended C6 at load 1000 and capacity 2000. -/
theorem utilization_percent_correct_witness :
    ((0 : ℚ) < 2000 ∧ (0 : ℚ) ≤ 1000 ∧ (1000 : ℚ) ≤ 2000) ∧
    (utilizationPercent 1000 2000 = 1000 / 2000 * 100 ∧
     0 ≤ (1000 : ℚ) / 2000 ∧ (1000 : ℚ) / 2000 ≤ 1 ∧
     0 ≤ utilizationPercent 1000 2000 ∧ utilizationPercent 1000 2000 ≤ 100 ∧
     (highlightLowUtil 1000 2000 = true ↔ (1000 : ℚ) / 2000 < 3 / 5)) :=
  ⟨⟨by norm_num, by norm_num, by norm_num⟩,
   utilization_percent_correct 1000 2000 (by norm_num) (by norm_num) (by norm_num)⟩

end Biomass
